import Mathlib

/-!
Shallow embedding of the gymjs space type system and lifecycle wrappers.

Numeric values are modelled over the rationals; JS numbers that may be
infinite (Box bounds, tensor elements) are modelled by `EVal`, rationals
extended with the two infinities.  Tensors are flat lists of `EVal`
together with a shape and a dtype.  Random draws of the samplers are
passed in explicitly, constrained by the contracts of the tf.js
generators they come from (`randomUniform` in `[lo, hi)`, etc.).
-/

/-- A JS number extended with the IEEE infinities (NaN never arises in the
modelled code paths). -/
inductive EVal where
  | negInf : EVal
  | fin : ℚ → EVal
  | posInf : EVal
deriving DecidableEq

/-- Strict IEEE comparison `a < b` on non-NaN doubles. -/
def EVal.lt : EVal → EVal → Bool
  | .negInf, .negInf => false
  | .negInf, _ => true
  | .fin _, .negInf => false
  | .fin a, .fin b => decide (a < b)
  | .fin _, .posInf => true
  | .posInf, _ => false

/-- IEEE comparison `a <= b` on non-NaN doubles. -/
def EVal.le : EVal → EVal → Bool
  | .negInf, _ => true
  | .fin _, .negInf => false
  | .fin a, .fin b => decide (a ≤ b)
  | .fin _, .posInf => true
  | .posInf, .posInf => true
  | .posInf, _ => false

/-- IEEE negation. -/
def EVal.neg : EVal → EVal
  | .negInf => .posInf
  | .fin a => .fin (-a)
  | .posInf => .negInf

/-- Add a finite number to an extended value (`∞ + q = ∞`). -/
def EVal.addQ : EVal → ℚ → EVal
  | .negInf, _ => .negInf
  | .fin a, q => .fin (a + q)
  | .posInf, _ => .posInf

/-- The tensor dtypes the modelled code uses. -/
inductive Dtype where
  | float32 : Dtype
  | int32 : Dtype
deriving DecidableEq

/-- A tf.Tensor: a shape, a dtype and the flat element data. -/
structure TensorM where
  shape : List ℕ
  dtype : Dtype
  data : List EVal
deriving DecidableEq

/-- `tensor.asType(dtype)`: identity on float32; for int32 the float
intermediate is floored (JS `ToInt32` sends infinities to 0). -/
def castVal (dtype : Dtype) (v : EVal) : EVal :=
  match dtype, v with
  | Dtype.float32, w => w
  | Dtype.int32, EVal.fin q => EVal.fin ((Rat.floor q : ℤ) : ℚ)
  | Dtype.int32, _ => EVal.fin 0

/-- The two representation kinds of Box bounds: both scalars or both
tensors (src/unnamed/part_008, fields `low`, `high`). -/
inductive BoxBounds where
  | scalar (low high : EVal) : BoxBounds
  | arr (low high : TensorM) : BoxBounds
deriving DecidableEq

/-- A constructed Box space (src/unnamed/part_008). -/
structure BoxM where
  shape : List ℕ
  dtype : Dtype
  bounds : BoxBounds
deriving DecidableEq

/-- `isError`-style test for the `Except` results of fallible operations. -/
def isErr {ε α : Type} : Except ε α → Bool
  | Except.error _ => true
  | Except.ok _ => false

/-- The Box constructor (src/unnamed/part_008, lines 15-43).  The JS
`typeof low !== typeof high` test distinguishes the scalar (`number`)
payload from the tensor (`object`) payload, so a `Sum` input captures the
untyped union. -/
def Box.make (low high : EVal ⊕ TensorM) (shape : List ℕ) (dtype : Dtype) :
    Except String BoxM :=
  match low, high with
  | Sum.inr l, Sum.inr h =>
    if l.shape ≠ shape then Except.error "Low should have the same shape as Box!"
    else if h.shape ≠ shape then Except.error "High should have the same shape as Box!"
    else if (List.zipWith (fun hv lv => EVal.lt hv lv) h.data l.data).any (fun b => b) then
      Except.error "Not all values in high are higher than low!"
    else Except.ok ⟨shape, dtype, BoxBounds.arr l h⟩
  | Sum.inl l, Sum.inl h =>
    if EVal.lt h l then Except.error "High is lower than low!"
    else Except.ok ⟨shape, dtype, BoxBounds.scalar l h⟩
  | _, _ => Except.error "Low and high should be of the same type!"

/-- `Box.contains` (src/unnamed/part_008, lines 119-143): the input is
already a tensor (the `x instanceof tf.Tensor` guard), then shape and
dtype are compared, then `x.lessEqual(high).logicalAnd(not(x.less(low)))`
is reduced with `.any()`. -/
def Box.containsM (b : BoxM) (x : TensorM) : Bool :=
  if b.shape ≠ x.shape then false
  else if x.dtype ≠ b.dtype then false
  else
    let inBound :=
      match b.bounds with
      | BoxBounds.scalar l h =>
          x.data.map (fun v => EVal.le v h && !(EVal.lt v l))
      | BoxBounds.arr lT hT =>
          List.zipWith (fun p q => p && q)
            (List.zipWith (fun v hv => EVal.le v hv) x.data hT.data)
            (List.zipWith (fun v lv => !(EVal.lt v lv)) x.data lT.data)
    inBound.any (fun c => c)

/-- One element of the array-bound `Box.sample` path
(src/unnamed/part_008, lines 59-105): the four boundedness masks
(`neg(low).less(∞)`, `high.less(∞)`) select the normal, uniform,
low-plus-exponential or high-minus-exponential draw.  The bounded branch
only fires when both bounds are finite for every Box a valid constructor
produced, so the fallback rows are unreachable there. -/
def Box.sampleElem (lowv highv : EVal) (n u e : ℚ) : EVal :=
  let boundedBelow := EVal.lt (EVal.neg lowv) EVal.posInf
  let boundedAbove := EVal.lt highv EVal.posInf
  if !boundedBelow && !boundedAbove then EVal.fin n
  else if boundedBelow && boundedAbove then
    match lowv, highv with
    | EVal.fin l, EVal.fin h => EVal.fin (l + u * (h - l))
    | _, _ => EVal.fin 0
  else if boundedBelow then EVal.addQ lowv e
  else EVal.addQ highv (-e)

/-- Elementwise merge of the per-element draws, one entry per tensor
element (the `tf.where` merges act pointwise across the shape). -/
def Box.sampleMerge : List EVal → List EVal → List ℚ → List ℚ → List ℚ → List EVal
  | l :: ls, h :: hs, n :: ns, u :: us, e :: es =>
      Box.sampleElem l h n u e :: Box.sampleMerge ls hs ns us es
  | _, _, _, _, _ => []

/-- The array-bound `Box.sample` path (src/unnamed/part_008, lines
59-105): when the HIGH TENSOR's dtype is int32 the upper bound becomes
`high + 1`, the draws are merged per element, and the result is cast to
the Box's declared dtype.  `ns`, `us`, `es` are the outcomes of the
normal, uniform-[0,1) and exponential generators. -/
def Box.sampleArr (shape : List ℕ) (dtype : Dtype) (lowT highT : TensorM)
    (ns us es : List ℚ) : TensorM :=
  let highData :=
    if highT.dtype = Dtype.int32 then highT.data.map (fun h => EVal.addQ h 1)
    else highT.data
  ⟨shape, dtype, (Box.sampleMerge lowT.data highData ns us es).map (castVal dtype)⟩

/-- `Discrete.contains` (src/src/spaces/discrete.ts, lines 52-62): the
`typeof x === 'number'` guard is the typing of `x : ℚ`; then only the
range test `x >= start && x < start + n` is performed. -/
def Discrete.containsM (n start : ℤ) (x : ℚ) : Bool :=
  if (start : ℚ) ≤ x ∧ x < (start : ℚ) + (n : ℚ) then true else false

/-- The five components of a step result
(`[obs, reward, terminated, truncated, info]`). -/
structure StepResultM (Obs Info : Type) where
  obs : Obs
  reward : ℚ
  terminated : Bool
  truncated : Bool
  info : Option Info
deriving DecidableEq

/-- The private state of a `TimeLimit` wrapper
(src/src/wrappers/common.ts, lines 8-16). -/
structure TLState where
  maxEpisodeSteps : ℤ
  elapsedSteps : ℤ
deriving DecidableEq

/-- The `TimeLimit` constructor: `elapsedSteps = -1` ("Env hasn't began
yet", src/src/wrappers/common.ts, line 15). -/
def TimeLimit.initState (maxEpisodeSteps : ℤ) : TLState :=
  ⟨maxEpisodeSteps, -1⟩

/-- `TimeLimit.reset` (lines 24-27): zero the counter, delegate. -/
def TimeLimit.resetState (s : TLState) : TLState :=
  { s with elapsedSteps := 0 }

/-- `TimeLimit.step` (lines 35-47): take the inner result, bump the
counter, and force `truncated = true` once it reaches the maximum. -/
def TimeLimit.stepM {Obs Info : Type} (s : TLState) (inner : StepResultM Obs Info) :
    TLState × StepResultM Obs Info :=
  let s' := { s with elapsedSteps := s.elapsedSteps + 1 }
  if s'.elapsedSteps ≥ s.maxEpisodeSteps then (s', { inner with truncated := true })
  else (s', inner)

/-- `TimeLimit.step` when the inner `step` may throw: the counter
increment sits after the `await`, so an inner exception leaves the
wrapper state untouched and propagates. -/
def TimeLimit.stepE {Obs Info : Type} (s : TLState)
    (inner : Except String (StepResultM Obs Info)) :
    TLState × Except String (StepResultM Obs Info) :=
  match inner with
  | Except.error e => (s, Except.error e)
  | Except.ok r => ((TimeLimit.stepM s r).1, Except.ok (TimeLimit.stepM s r).2)

/-- Iterate `TimeLimit.step` k times; `f j` is the inner environment's
result for the j-th step. -/
def TimeLimit.runM {Obs Info : Type} (f : ℕ → StepResultM Obs Info) (s : TLState) :
    ℕ → TLState
  | 0 => s
  | k + 1 => (TimeLimit.stepM (TimeLimit.runM f s k) (f (k + 1))).1

/-- The result of the k-th `step` call (k ≥ 1) starting from state `s`. -/
def TimeLimit.nthResult {Obs Info : Type} (f : ℕ → StepResultM Obs Info)
    (s : TLState) (k : ℕ) : StepResultM Obs Info :=
  (TimeLimit.stepM (TimeLimit.runM f s (k - 1)) (f k)).2

/-- An inner environment as the wrappers see it: `reset` and `step` over
an internal state. -/
structure EnvM (σ Obs Act Info : Type) where
  reset : σ → σ × Obs × Option Info
  step : σ → Act → σ × StepResultM Obs Info

/-- `Autoreset.step` (src/src/wrappers/common.ts, lines 78-97): when the
pending flag is set the caller's action is dropped and the inner `reset`
is performed with zero reward and cleared flags; otherwise the action is
forwarded.  Either way the new pending flag is `terminated || truncated`
of the returned record. -/
def Autoreset.stepM {σ Obs Act Info : Type} (E : EnvM σ Obs Act Info)
    (s : σ) (autoReset : Bool) (a : Act) :
    σ × Bool × StepResultM Obs Info :=
  let out :=
    if autoReset then
      let r := E.reset s
      (r.1, (⟨r.2.1, 0, false, false, r.2.2⟩ : StepResultM Obs Info))
    else
      let r := E.step s a
      (r.1, r.2)
  (out.1, out.2.terminated || out.2.truncated, out.2)

/-- `Autoreset.reset` (lines 67-70): clear the pending flag, delegate. -/
def Autoreset.resetM {σ Obs Act Info : Type} (E : EnvM σ Obs Act Info) (s : σ) :
    σ × Bool × (Obs × Option Info) :=
  let r := E.reset s
  (r.1, false, r.2)

/-- Operations a caller can invoke on an `OrderEnforcing` wrapper. -/
inductive OEOp where
  | reset : OEOp
  | step : OEOp
  | render : OEOp
deriving DecidableEq

/-- `hasReset` after a history of calls: `false` at construction
(src/src/wrappers/common.ts, line 113), set to `true` by every `reset`
(line 125) and never cleared. -/
def OrderEnforcing.hasResetAfter : List OEOp → Bool
  | [] => false
  | OEOp.reset :: _ => true
  | _ :: rest => OrderEnforcing.hasResetAfter rest

/-- `OrderEnforcing.step` (lines 135-145): throw before the first reset,
otherwise forward the inner result. -/
def OrderEnforcing.stepM {α : Type} (hasReset : Bool) (inner : α) : Except String α :=
  if !hasReset then Except.error "Cannot call env.step() before calling env.reset()"
  else Except.ok inner

/-- `OrderEnforcing.render` (lines 150-158): throw before the first reset
unless render order enforcement is disabled. -/
def OrderEnforcing.renderM {α : Type} (disableRenderOrderEnforcing hasReset : Bool)
    (inner : α) : Except String α :=
  if !disableRenderOrderEnforcing && !hasReset then
    Except.error
      "Cannot call env.render() before calling env.reset(), unset disableRenderOrderEnforcing if this is intended"
  else Except.ok inner

/-- A value stored in an info record. -/
inductive InfoVal where
  | num (q : ℚ) : InfoVal
  | stats (rewards : ℚ) (length : ℤ) (time : ℚ) : InfoVal
deriving DecidableEq

/-- An info record: an ordered JS object, keys to values. -/
abbrev InfoM := List (String × InfoVal)

/-- The private state of a `RecordEpisodeStatistics` wrapper
(src/src/wrappers/common.ts, lines 169-181). -/
structure RESState where
  episodeStartTime : ℚ
  episodeReturns : ℚ
  episodeLengths : ℤ
deriving DecidableEq

/-- `RecordEpisodeStatistics.reset` (lines 189-196): stamp the start
time, zero both accumulators. -/
def RecordEpisodeStatistics.resetM (now : ℚ) : RESState :=
  ⟨now, 0, 0⟩

/-- `RecordEpisodeStatistics.step` (lines 204-231): the accumulators are
advanced first; on a terminal step the stats record is injected under
`statsKey` unless that key already exists, in which case the call throws
(after the accumulators were already advanced).  `now` models the
`Date.now()` call. -/
def RecordEpisodeStatistics.stepM {Obs : Type} (statsKey : String) (st : RESState)
    (inner : StepResultM Obs InfoM) (now : ℚ) :
    RESState × Except String (StepResultM Obs InfoM) :=
  let st' : RESState :=
    { st with
      episodeReturns := st.episodeReturns + inner.reward
      episodeLengths := st.episodeLengths + 1 }
  if inner.terminated || inner.truncated then
    let info0 := inner.info.getD []
    if (info0.map Prod.fst).contains statsKey then
      (st', Except.error "Stats key already exists in info!")
    else
      (st', Except.ok { inner with info := some (info0 ++
        [(statsKey, InfoVal.stats st'.episodeReturns st'.episodeLengths
            ((now - st.episodeStartTime) / 1000))]) })
  else (st', Except.ok inner)

/-- Fold `RecordEpisodeStatistics.step` over a list of inner results and
clock readings, tracking only the wrapper state. -/
def RecordEpisodeStatistics.runM {Obs : Type} (statsKey : String) :
    RESState → List (StepResultM Obs InfoM × ℚ) → RESState
  | st, [] => st
  | st, (inner, now) :: rest =>
      RecordEpisodeStatistics.runM statsKey
        (RecordEpisodeStatistics.stepM statsKey st inner now).1 rest

/-- Modelled from the claim's words for comparison with `Box.make`: the
constructor is said to fail exactly on mismatched representation kinds,
an array bound whose shape differs from the declared shape, scalar
bounds with `high < low`, or array bounds with `high < low` in some
element. -/
def boxConstructorFailsSpec : (EVal ⊕ TensorM) → (EVal ⊕ TensorM) → List ℕ → Prop
  | Sum.inl l, Sum.inl h, _ => EVal.lt h l = true
  | Sum.inr l, Sum.inr h, shape =>
      l.shape ≠ shape ∨ h.shape ≠ shape ∨
      ∃ (i : ℕ) (h1 : i < h.data.length) (h2 : i < l.data.length),
        EVal.lt (h.data.get ⟨i, h1⟩) (l.data.get ⟨i, h2⟩) = true
  | _, _, _ => True

/-- A two-element float Box with bounds `[0,0]`/`[1,1]`. -/
def boxC1 : BoxM :=
  ⟨[2], Dtype.float32,
    BoxBounds.arr ⟨[2], Dtype.float32, [EVal.fin 0, EVal.fin 0]⟩
      ⟨[2], Dtype.float32, [EVal.fin 1, EVal.fin 1]⟩⟩

/-- A tensor of the right shape and dtype for `boxC1` whose second
element lies far outside the bounds. -/
def xC1 : TensorM := ⟨[2], Dtype.float32, [EVal.fin (1/2), EVal.fin 5]⟩

/-- Int32 bound tensors `[0]`/`[1]` for a float32 Box. -/
def lowC2 : TensorM := ⟨[1], Dtype.int32, [EVal.fin 0]⟩

/-- See `lowC2`. -/
def highC2 : TensorM := ⟨[1], Dtype.int32, [EVal.fin 1]⟩

/-- The float32 Box with the int32 bound tensors `lowC2`/`highC2`. -/
def boxC2 : BoxM := ⟨[1], Dtype.float32, BoxBounds.arr lowC2 highC2⟩

/-- An inner step sequence that never terminates nor truncates. -/
def constStep : ℕ → StepResultM ℤ ℤ :=
  fun _ => ⟨0, 0, false, false, none⟩

/-- A small inner environment: the state counts steps, the episode
terminates on the third step. -/
def envEx : EnvM ℤ ℤ ℤ ℤ where
  reset := fun _ => (0, 0, none)
  step := fun s _ => (s + 1, ⟨s + 1, 1, decide (s + 1 ≥ 3), false, none⟩)

/-- An inner step result that terminates while its info already carries
the key "episode". -/
def innerCollide : StepResultM ℤ InfoM :=
  ⟨0, 1, true, false, some [("episode", InfoVal.num 0)]⟩

/-- An inner step result that terminates with reward 1 and no info. -/
def innerTerm : StepResultM ℤ InfoM :=
  ⟨0, 1, true, false, none⟩

theorem TimeLimit.stepM_state_eq {Obs Info : Type} (s : TLState) (r : StepResultM Obs Info) :
    (TimeLimit.stepM s r).1 = { s with elapsedSteps := s.elapsedSteps + 1 } := by
  simp only [TimeLimit.stepM]
  split <;> rfl

theorem TimeLimit.stepM_truncated {Obs Info : Type} (s : TLState) (r : StepResultM Obs Info) :
    (TimeLimit.stepM s r).2.truncated =
      (if s.maxEpisodeSteps ≤ s.elapsedSteps + 1 then true else r.truncated) := by
  by_cases hc : s.maxEpisodeSteps ≤ s.elapsedSteps + 1 <;>
    simp [TimeLimit.stepM, ge_iff_le, hc]

theorem TimeLimit.runM_state {Obs Info : Type} (f : ℕ → StepResultM Obs Info)
    (s : TLState) (k : ℕ) :
    TimeLimit.runM f s k = ⟨s.maxEpisodeSteps, s.elapsedSteps + k⟩ := by
  induction k with
  | zero => simp [TimeLimit.runM]
  | succ k ih =>
    rw [TimeLimit.runM, ih, TimeLimit.stepM_state_eq]
    simp only [TLState.mk.injEq, true_and]
    push_cast
    ring

theorem TimeLimit.nthResult_truncated {Obs Info : Type} (f : ℕ → StepResultM Obs Info)
    (s : TLState) (k : ℕ) (hk : 1 ≤ k) :
    (TimeLimit.nthResult f s k).truncated =
      (if s.maxEpisodeSteps ≤ s.elapsedSteps + k then true else (f k).truncated) := by
  unfold TimeLimit.nthResult
  rw [TimeLimit.runM_state, TimeLimit.stepM_truncated]
  have h : s.elapsedSteps + ((k - 1 : ℕ) : ℤ) + 1 = s.elapsedSteps + (k : ℤ) := by
    omega
  rw [h]

theorem RecordEpisodeStatistics.stepM_state_accum {Obs : Type} (statsKey : String)
    (st : RESState) (inner : StepResultM Obs InfoM) (now : ℚ) :
    (RecordEpisodeStatistics.stepM statsKey st inner now).1 =
      { st with
        episodeReturns := st.episodeReturns + inner.reward
        episodeLengths := st.episodeLengths + 1 } := by
  simp only [RecordEpisodeStatistics.stepM]
  split
  · split <;> rfl
  · rfl

theorem RecordEpisodeStatistics.runM_accum {Obs : Type} (statsKey : String) :
    ∀ (steps : List (StepResultM Obs InfoM × ℚ)) (st : RESState),
      (RecordEpisodeStatistics.runM statsKey st steps).episodeReturns
          = st.episodeReturns + (steps.map (fun p => p.1.reward)).sum
      ∧ (RecordEpisodeStatistics.runM statsKey st steps).episodeLengths
          = st.episodeLengths + steps.length
  | [], st => by simp [RecordEpisodeStatistics.runM]
  | (inner, now) :: rest, st => by
    rw [RecordEpisodeStatistics.runM, RecordEpisodeStatistics.stepM_state_accum]
    have h := RecordEpisodeStatistics.runM_accum statsKey rest
      { st with
        episodeReturns := st.episodeReturns + inner.reward
        episodeLengths := st.episodeLengths + 1 }
    refine ⟨?_, ?_⟩
    · rw [h.1]
      simp only [List.map_cons, List.sum_cons]
      ring
    · rw [h.2]
      simp only [List.length_cons]
      push_cast
      ring

theorem lookup_append_of_not_contains (l : InfoM) (key : String) (v : InfoVal)
    (hk : (l.map Prod.fst).contains key = false) :
    List.lookup key (l ++ [(key, v)]) = some v := by
  induction l with
  | nil => simp [List.lookup]
  | cons p rest ih =>
    obtain ⟨k, w⟩ := p
    simp only [List.map_cons, List.contains_cons, Bool.or_eq_false_iff] at hk
    rw [List.cons_append, List.lookup]
    have hne : (key == k) = false := by
      cases hbeq : key == k
      · rfl
      · exact absurd (by simpa [eq_comm] using (beq_iff_eq.mp hbeq)) (by
          intro hkk
          have := hk.1
          simp [hkk] at this)
    rw [hne]
    exact ih hk.2

theorem OrderEnforcing.hasResetAfter_iff (ops : List OEOp) :
    OrderEnforcing.hasResetAfter ops = true ↔ OEOp.reset ∈ ops := by
  induction ops with
  | nil => simp [OrderEnforcing.hasResetAfter]
  | cons op rest ih =>
    cases op <;> simp [OrderEnforcing.hasResetAfter, ih]

theorem zipWith_any_get {α β : Type} (f : α → β → Bool) (as : List α) (bs : List β) :
    (List.zipWith f as bs).any (fun b => b) = true ↔
      ∃ (i : ℕ) (h1 : i < as.length) (h2 : i < bs.length),
        f (as.get ⟨i, h1⟩) (bs.get ⟨i, h2⟩) = true := by
  induction as generalizing bs with
  | nil => simp
  | cons a as ih =>
    cases bs with
    | nil => simp
    | cons b bs =>
      simp only [List.zipWith_cons_cons, List.any_cons, Bool.or_eq_true, ih,
        List.length_cons]
      constructor
      · rintro (h | ⟨i, h1, h2, hf⟩)
        · exact ⟨0, Nat.succ_pos _, Nat.succ_pos _, h⟩
        · exact ⟨i + 1, Nat.succ_lt_succ h1, Nat.succ_lt_succ h2, hf⟩
      · rintro ⟨i, h1, h2, hf⟩
        cases i with
        | zero => exact Or.inl hf
        | succ i =>
          exact Or.inr ⟨i, Nat.lt_of_succ_lt_succ h1, Nat.lt_of_succ_lt_succ h2, hf⟩

/-- C1: the claim says `Box.contains` on array bounds is true iff EVERY
element satisfies `low <= x <= high`.  The code reduces the elementwise
in-bound mask with `.any()`, so `boxC1` (bounds `[0,0]`/`[1,1]`) reports
`xC1 = [1/2, 5]` as contained although its second element violates
`5 <= 1`. -/
theorem box_contains_is_any_based :
    Box.containsM boxC1 xC1 = true ∧ EVal.le (EVal.fin 5) (EVal.fin 1) = false := by
  constructor
  · simp [Box.containsM, boxC1, xC1, EVal.le, EVal.lt]
    norm_num
  · simp [EVal.le]

/-- C2: the claim says `contains(sample())` always holds.  The float32
Box constructed from the int32 bound tensors `[0]`/`[1]` is accepted by
the constructor, yet `sample` widens the upper bound to `high + 1`
because the HIGH TENSOR's dtype is int32; with the legal uniform draw
`u = 3/4` the sample is `[3/2]`, which `contains` rejects. -/
theorem box_sample_escapes_bounds :
    Box.make (Sum.inr lowC2) (Sum.inr highC2) [1] Dtype.float32 = Except.ok boxC2
    ∧ (0 ≤ (3/4 : ℚ) ∧ (3/4 : ℚ) < 1)
    ∧ Box.sampleArr [1] Dtype.float32 lowC2 highC2 [0] [3/4] [1]
        = ⟨[1], Dtype.float32, [EVal.fin (3/2)]⟩
    ∧ Box.containsM boxC2 ⟨[1], Dtype.float32, [EVal.fin (3/2)]⟩ = false := by
  refine ⟨?_, ⟨by norm_num, by norm_num⟩, ?_, ?_⟩
  · simp [Box.make, lowC2, highC2, boxC2, EVal.lt]
  · simp [Box.sampleArr, Box.sampleMerge, Box.sampleElem, lowC2, highC2, EVal.lt, EVal.neg,
      EVal.addQ, castVal]
    norm_num
  · simp [Box.containsM, boxC2, lowC2, highC2, EVal.le, EVal.lt]
    norm_num

/-- C3: after a `reset`, stepping a `TimeLimit` wrapper over an inner
environment that never terminates nor truncates yields `truncated =
false` on every step before the N-th and `truncated = true` on the N-th;
the forced truncation on reaching the maximum fires for any inner
`terminated`/`truncated` value; and every `reset` zeroes the counter. -/
theorem timeLimit_truncates_at_max {Obs Info : Type} (max e0 : ℤ)
    (f : ℕ → StepResultM Obs Info) (hmax : 1 ≤ max)
    (hf : ∀ k, (f k).terminated = false ∧ (f k).truncated = false) :
    (∀ k : ℕ, 1 ≤ k → (k : ℤ) < max →
      (TimeLimit.nthResult f (TimeLimit.resetState ⟨max, e0⟩) k).truncated = false)
    ∧ (TimeLimit.nthResult f (TimeLimit.resetState ⟨max, e0⟩) max.toNat).truncated = true
    ∧ (∀ (s : TLState) (r : StepResultM Obs Info),
        s.maxEpisodeSteps ≤ s.elapsedSteps + 1 → (TimeLimit.stepM s r).2.truncated = true)
    ∧ (∀ s : TLState, (TimeLimit.resetState s).elapsedSteps = 0) := by
  refine ⟨?_, ?_, ?_, fun s => rfl⟩
  · intro k hk hlt
    rw [TimeLimit.nthResult_truncated f _ k hk]
    have hcond : ¬ ((⟨max, e0⟩ : TLState) : TLState).maxEpisodeSteps ≤
        (TimeLimit.resetState ⟨max, e0⟩).elapsedSteps + (k : ℤ) := by
      simp only [TimeLimit.resetState]
      omega
    simp only [TimeLimit.resetState] at hcond ⊢
    rw [if_neg hcond]
    exact (hf k).2
  · have hk : 1 ≤ max.toNat := by omega
    rw [TimeLimit.nthResult_truncated f _ _ hk]
    have hcond : (TimeLimit.resetState ⟨max, e0⟩).maxEpisodeSteps ≤
        (TimeLimit.resetState ⟨max, e0⟩).elapsedSteps + (max.toNat : ℤ) := by
      simp only [TimeLimit.resetState]
      omega
    simp only [TimeLimit.resetState] at hcond ⊢
    rw [if_pos hcond]
  · intro s r h
    rw [TimeLimit.stepM_truncated, if_pos h]

/-- C3 witness: with maximum 2, the first step is not truncated and the
second is. -/
theorem timeLimit_truncates_at_max_witness :
    (TimeLimit.nthResult constStep (TimeLimit.resetState ⟨2, 5⟩) 1).truncated = false
    ∧ (TimeLimit.nthResult constStep (TimeLimit.resetState ⟨2, 5⟩) 2).truncated = true := by
  have h := timeLimit_truncates_at_max 2 5 constStep
    (by norm_num) (fun k => ⟨rfl, rfl⟩)
  exact ⟨h.1 1 (by norm_num) (by norm_num), h.2.1⟩

/-- C4: once a step of the `Autoreset` wrapper reports `terminated ||
truncated`, the pending flag is set; a step taken with the pending flag
set performs the inner `reset`, returns its observation and info with
zero reward and cleared flags, and is independent of the supplied
action; and the wrapper's `reset` clears the pending flag. -/
theorem autoreset_intercepts_after_done {σ Obs Act Info : Type}
    (E : EnvM σ Obs Act Info) (s : σ) (ar : Bool) (a : Act)
    (hEnd : ((Autoreset.stepM E s ar a).2.2.terminated
              || (Autoreset.stepM E s ar a).2.2.truncated) = true) :
    (Autoreset.stepM E s ar a).2.1 = true
    ∧ (∀ a' : Act,
        Autoreset.stepM E (Autoreset.stepM E s ar a).1 true a' =
          ((E.reset (Autoreset.stepM E s ar a).1).1, false,
            ⟨(E.reset (Autoreset.stepM E s ar a).1).2.1, 0, false, false,
              (E.reset (Autoreset.stepM E s ar a).1).2.2⟩))
    ∧ (∀ s' : σ, (Autoreset.resetM E s').2.1 = false) := by
  exact ⟨hEnd, fun a' => rfl, fun s' => rfl⟩

/-- C4 witness: in `envEx` the third step terminates; the fourth step
(with any action, here 99) returns the reset observation with zero
reward and cleared flags. -/
theorem autoreset_intercepts_after_done_witness :
    (Autoreset.stepM envEx 2 false (0 : ℤ)).2.1 = true
    ∧ Autoreset.stepM envEx (Autoreset.stepM envEx 2 false (0 : ℤ)).1 true (99 : ℤ) =
        ((envEx.reset (Autoreset.stepM envEx 2 false (0 : ℤ)).1).1, false,
          ⟨(envEx.reset (Autoreset.stepM envEx 2 false (0 : ℤ)).1).2.1, 0, false, false,
            (envEx.reset (Autoreset.stepM envEx 2 false (0 : ℤ)).1).2.2⟩) := by
  have h := autoreset_intercepts_after_done envEx 2 false (0 : ℤ) (by rfl)
  exact ⟨h.1, h.2.1 99⟩

/-- C5: `OrderEnforcing.step` fails exactly when no `reset` occurs in the
call history since construction; `render` fails exactly when moreover
render order enforcement was not disabled; and after a history containing
a `reset`, `step` forwards the inner result unchanged. -/
theorem orderEnforcing_requires_reset {α : Type} (ops : List OEOp) (inner : α)
    (disable : Bool) :
    (isErr (OrderEnforcing.stepM (OrderEnforcing.hasResetAfter ops) inner) = true
      ↔ OEOp.reset ∉ ops)
    ∧ (isErr (OrderEnforcing.renderM disable (OrderEnforcing.hasResetAfter ops) inner) = true
      ↔ (disable = false ∧ OEOp.reset ∉ ops))
    ∧ (OEOp.reset ∈ ops →
        OrderEnforcing.stepM (OrderEnforcing.hasResetAfter ops) inner = Except.ok inner) := by
  have hmem := OrderEnforcing.hasResetAfter_iff ops
  refine ⟨?_, ?_, ?_⟩
  · cases hr : OrderEnforcing.hasResetAfter ops <;>
      rw [hr] at hmem <;>
      simp [OrderEnforcing.stepM, isErr] <;> simp at hmem <;> exact hmem
  · cases hr : OrderEnforcing.hasResetAfter ops <;>
      rw [hr] at hmem <;>
      cases disable <;>
      simp [OrderEnforcing.renderM, isErr] <;> simp at hmem <;> simp [hmem]
  · intro hin
    have : OrderEnforcing.hasResetAfter ops = true := hmem.mpr hin
    simp [OrderEnforcing.stepM, this]

/-- C5 witness: after the history `[reset]`, a step is forwarded. -/
theorem orderEnforcing_requires_reset_witness :
    OrderEnforcing.stepM (OrderEnforcing.hasResetAfter [OEOp.reset]) (0 : ℤ)
      = Except.ok 0 := by
  exact (orderEnforcing_requires_reset [OEOp.reset] (0 : ℤ) false).2.2
    (List.mem_singleton.mpr rfl)

/-- C6: a terminal step of `RecordEpisodeStatistics` whose key is not yet
present returns the inner result with the stats record (episode reward
sum, episode step count, elapsed wall-clock seconds since reset)
appended under the key, and looking the key up finds that record; a
non-terminal step returns the inner result unchanged; a terminal step
whose key is already present throws; and from a `reset` state the
accumulators equal the reward sum and step count of the steps taken. -/
theorem recordStats_step_behavior {Obs : Type} (statsKey : String) (st : RESState)
    (inner : StepResultM Obs InfoM) (now now0 : ℚ) :
    ((inner.terminated || inner.truncated) = true →
      ((inner.info.getD []).map Prod.fst).contains statsKey = false →
      (RecordEpisodeStatistics.stepM statsKey st inner now).2 =
        Except.ok { inner with info := some ((inner.info.getD []) ++
          [(statsKey, InfoVal.stats (st.episodeReturns + inner.reward)
              (st.episodeLengths + 1) ((now - st.episodeStartTime) / 1000))]) }
      ∧ List.lookup statsKey ((inner.info.getD []) ++
          [(statsKey, InfoVal.stats (st.episodeReturns + inner.reward)
              (st.episodeLengths + 1) ((now - st.episodeStartTime) / 1000))])
          = some (InfoVal.stats (st.episodeReturns + inner.reward)
              (st.episodeLengths + 1) ((now - st.episodeStartTime) / 1000)))
    ∧ ((inner.terminated || inner.truncated) = false →
      (RecordEpisodeStatistics.stepM statsKey st inner now).2 = Except.ok inner)
    ∧ ((inner.terminated || inner.truncated) = true →
      ((inner.info.getD []).map Prod.fst).contains statsKey = true →
      (RecordEpisodeStatistics.stepM statsKey st inner now).2 =
        Except.error "Stats key already exists in info!")
    ∧ (∀ steps : List (StepResultM Obs InfoM × ℚ),
        (RecordEpisodeStatistics.runM statsKey
            (RecordEpisodeStatistics.resetM now0) steps).episodeReturns
          = (steps.map (fun p => p.1.reward)).sum
        ∧ (RecordEpisodeStatistics.runM statsKey
            (RecordEpisodeStatistics.resetM now0) steps).episodeLengths
          = steps.length) := by
  refine ⟨?_, ?_, ?_, ?_⟩
  · intro hterm habsent
    refine ⟨?_, lookup_append_of_not_contains _ _ _ habsent⟩
    simp only [RecordEpisodeStatistics.stepM]
    rw [if_pos hterm, if_neg (by rw [habsent]; exact Bool.false_ne_true)]
  · intro hterm
    simp [RecordEpisodeStatistics.stepM, hterm]
  · intro hterm hpresent
    simp only [RecordEpisodeStatistics.stepM]
    rw [if_pos hterm, if_pos hpresent]
  · intro steps
    have h := RecordEpisodeStatistics.runM_accum statsKey steps
      (RecordEpisodeStatistics.resetM now0)
    refine ⟨?_, ?_⟩
    · rw [h.1]
      simp [RecordEpisodeStatistics.resetM]
    · rw [h.2]
      simp [RecordEpisodeStatistics.resetM]

/-- C6 witness: a terminal step with reward 1 from the zero state injects
the stats record under "episode". -/
theorem recordStats_step_behavior_witness :
    (RecordEpisodeStatistics.stepM "episode" ⟨0, 0, 0⟩ innerTerm 2).2 =
      Except.ok { innerTerm with info := some ((innerTerm.info.getD []) ++
        [("episode", InfoVal.stats ((0 : ℚ) + innerTerm.reward)
            ((0 : ℤ) + 1) (((2 : ℚ) - 0) / 1000))]) } := by
  exact ((recordStats_step_behavior "episode" ⟨0, 0, 0⟩ innerTerm 2 0).1 rfl rfl).1

/-- C7 counterexample: the claim says a key-collision failure leaves the
accumulators of `RecordEpisodeStatistics` at their previous values.  On
the zero state, the colliding terminal step with reward 1 throws, yet the
wrapper state afterwards is `⟨0, 1, 1⟩`, not `⟨0, 0, 0⟩`: both
accumulators were advanced during the failed call. -/
theorem res_collision_advances_accumulators :
    (RecordEpisodeStatistics.stepM "episode" ⟨0, 0, 0⟩ innerCollide 1).2
      = Except.error "Stats key already exists in info!"
    ∧ (RecordEpisodeStatistics.stepM "episode" ⟨0, 0, 0⟩ innerCollide 1).1 = ⟨0, 1, 1⟩
    ∧ ((⟨0, 1, 1⟩ : RESState) ≠ ⟨0, 0, 0⟩) := by
  refine ⟨by rfl, ?_, ?_⟩
  · simp [RecordEpisodeStatistics.stepM, innerCollide]
  · simp [RESState.mk.injEq]

/-- C7 as amended: when `TimeLimit`'s inner step throws, the exception
propagates before the counter increment, so the wrapper state is
unchanged; but when `RecordEpisodeStatistics` throws its key-collision
error, its accumulators have already been advanced by the failed step's
reward and by one step. -/
theorem failed_step_state_effects (Obs Info : Type) :
    (∀ (s : TLState) (err : String),
      @TimeLimit.stepE Obs Info s (Except.error err)
        = (s, Except.error err))
    ∧ (∀ (statsKey : String) (st : RESState) (inner : StepResultM Obs InfoM) (now : ℚ),
        (inner.terminated || inner.truncated) = true →
        ((inner.info.getD []).map Prod.fst).contains statsKey = true →
        (RecordEpisodeStatistics.stepM statsKey st inner now).1.episodeReturns
            = st.episodeReturns + inner.reward
        ∧ (RecordEpisodeStatistics.stepM statsKey st inner now).1.episodeLengths
            = st.episodeLengths + 1
        ∧ (RecordEpisodeStatistics.stepM statsKey st inner now).2
            = Except.error "Stats key already exists in info!") := by
  refine ⟨fun s err => rfl, ?_⟩
  intro statsKey st inner now hterm hpresent
  rw [RecordEpisodeStatistics.stepM_state_accum]
  refine ⟨rfl, rfl, ?_⟩
  simp only [RecordEpisodeStatistics.stepM]
  rw [if_pos hterm, if_pos hpresent]

/-- C7 amended witness: a propagated inner error leaves the `TimeLimit`
state `⟨3, 0⟩` unchanged, and the colliding call advances the
accumulators. -/
theorem failed_step_state_effects_witness :
    @TimeLimit.stepE ℤ ℤ ⟨3, 0⟩ (Except.error "inner failure")
        = (⟨3, 0⟩, Except.error "inner failure")
    ∧ (RecordEpisodeStatistics.stepM "episode" ⟨0, 0, 0⟩ innerCollide 1).1.episodeReturns
        = 0 + innerCollide.reward := by
  have h := failed_step_state_effects ℤ ℤ
  exact ⟨h.1 ⟨3, 0⟩ "inner failure",
    (h.2 "episode" ⟨0, 0, 0⟩ innerCollide 1 rfl rfl).1⟩

/-- C8: the claim says `Discrete.contains(x)` is true iff `x` is an
INTEGER scalar in `[start, start+n)`.  The code only checks `typeof x ===
'number'` and the range, so the non-integer `1/2` (denominator 2) inside
the range of `Discrete(5, 0)` is reported as contained. -/
theorem discrete_contains_noninteger :
    Discrete.containsM 5 0 (1/2) = true ∧ ((1 : ℚ)/2).den = 2
    ∧ (0 : ℚ) ≤ 1/2 ∧ (1/2 : ℚ) < 0 + 5 := by
  refine ⟨?_, by norm_num [Rat.den], by norm_num, by norm_num⟩
  simp [Discrete.containsM]
  norm_num

/-- C9: the Box constructor fails exactly on the malformed inputs the
claim lists: mismatched representation kinds, an array bound whose shape
differs from the declared shape, scalar bounds with `high < low`, or
array bounds with `high < low` in some element. -/
theorem box_constructor_error_cases (low high : EVal ⊕ TensorM) (shape : List ℕ)
    (dtype : Dtype) :
    isErr (Box.make low high shape dtype) = true ↔
      boxConstructorFailsSpec low high shape := by
  cases low with
  | inl l =>
    cases high with
    | inl h =>
      simp only [Box.make, boxConstructorFailsSpec]
      cases hlt : EVal.lt h l <;> simp [isErr, hlt]
    | inr h =>
      simp [Box.make, boxConstructorFailsSpec, isErr]
  | inr l =>
    cases high with
    | inl h =>
      simp [Box.make, boxConstructorFailsSpec, isErr]
    | inr h =>
      simp only [Box.make, boxConstructorFailsSpec]
      rw [← zipWith_any_get (fun hv lv => EVal.lt hv lv) h.data l.data]
      by_cases hls : l.shape = shape
      · by_cases hhs : h.shape = shape
        · cases hany : (List.zipWith (fun hv lv => EVal.lt hv lv) h.data l.data).any
              (fun b => b) <;>
            simp [hls, hhs, hany, isErr]
        · simp [hls, hhs, isErr]
      · simp [hls, isErr]

/-- C10: a fresh `TimeLimit` wrapper starts its counter at -1, so
stepping WITHOUT an initial reset over a never-terminating inner
environment stays untruncated through step N and forces `truncated =
true` only on step N+1 — one step later than after a reset. -/
theorem timeLimit_without_reset_off_by_one {Obs Info : Type} (max : ℤ)
    (f : ℕ → StepResultM Obs Info) (hmax : 1 ≤ max)
    (hf : ∀ k, (f k).terminated = false ∧ (f k).truncated = false) :
    (TimeLimit.initState max).elapsedSteps = -1
    ∧ (∀ k : ℕ, 1 ≤ k → (k : ℤ) ≤ max →
        (TimeLimit.nthResult f (TimeLimit.initState max) k).truncated = false)
    ∧ (TimeLimit.nthResult f (TimeLimit.initState max) (max.toNat + 1)).truncated
        = true := by
  refine ⟨rfl, ?_, ?_⟩
  · intro k hk hle
    rw [TimeLimit.nthResult_truncated f _ k hk]
    have hcond : ¬ (TimeLimit.initState max).maxEpisodeSteps ≤
        (TimeLimit.initState max).elapsedSteps + (k : ℤ) := by
      simp only [TimeLimit.initState]
      omega
    rw [if_neg hcond]
    exact (hf k).2
  · have hk : 1 ≤ max.toNat + 1 := by omega
    rw [TimeLimit.nthResult_truncated f _ _ hk]
    have hcond : (TimeLimit.initState max).maxEpisodeSteps ≤
        (TimeLimit.initState max).elapsedSteps + ((max.toNat + 1 : ℕ) : ℤ) := by
      simp only [TimeLimit.initState]
      omega
    rw [if_pos hcond]

/-- C10 witness: with maximum 2 and no reset, steps 1 and 2 are not
truncated and step 3 is. -/
theorem timeLimit_without_reset_off_by_one_witness :
    (TimeLimit.nthResult constStep (TimeLimit.initState 2) 2).truncated = false
    ∧ (TimeLimit.nthResult constStep (TimeLimit.initState 2) 3).truncated = true := by
  have h := timeLimit_without_reset_off_by_one 2 constStep
    (by norm_num) (fun k => ⟨rfl, rfl⟩)
  exact ⟨h.2.1 2 (by norm_num) (by norm_num), h.2.2⟩
